import Mathlib

/-!
Shallow embedding of the kindle2pdf conversion pipeline (src/kindle2pdf.py)
and verification of the frozen claims about it.

The embedding follows the Python source function by function:
pure pixel-scanning routines become Lean functions on an abstract raster
image (`Img`), the stateful capture loop becomes an explicit recursive
function on its loop state, external effects (subprocess invocation,
metadata injection, file removal) become explicit event traces or
state transformers on a modelled file system.
-/

namespace Kindle2pdf

/-- An RGB color, as the 3-tuples PIL's `getpixel` returns. Equality is
exact component match. -/
def Color := Nat × Nat × Nat

instance : DecidableEq Color := by
  unfold Color
  infer_instance

/-- `K2pConfig` from the source: border and background detection colors. -/
structure K2pConfig where
  border_color : Color
  background_color : Color

/-- An in-memory raster image: dimensions plus a pixel lookup, abstracting
`PIL.Image` as used by the source (only `size` and `getpixel` matter to the
scanning code). -/
structure Img where
  width : Nat
  height : Nat
  pixel : Nat → Nat → Color

/-- Loop body of `_find_left_border` (src/kindle2pdf.py lines 109-129):
walk the given column indices left to right carrying the `border_find`
flag and the previously seen pixel; once the border color has been seen,
return the first column whose predecessor was exactly the background color
while the column itself is not. -/
def findLeftBorderLoop (cfg : K2pConfig) (im : Img) (sampleY : Nat) :
    List Nat → Bool → Option Color → Option Int
  | [], _, _ => none
  | x :: xs, borderFind, prevPixel =>
    let pixel := im.pixel x sampleY
    if borderFind then
      if prevPixel = some cfg.background_color ∧ pixel ≠ cfg.background_color then
        some (x : Int)
      else
        findLeftBorderLoop cfg im sampleY xs borderFind (some pixel)
    else
      findLeftBorderLoop cfg im sampleY xs (decide (pixel = cfg.border_color)) (some pixel)

/-- `_find_left_border(im, sample_y)`: scans `range(width)`. -/
def findLeftBorder (cfg : K2pConfig) (im : Img) (sampleY : Nat) : Option Int :=
  findLeftBorderLoop cfg im sampleY (List.range im.width) false none

/-- Loop body of `_find_right_border` (lines 131-146): walk the given
column indices, returning the first column whose previously visited
neighbour was the background color while the column itself is not. -/
def findRightBorderLoop (cfg : K2pConfig) (im : Img) (sampleY : Nat) :
    List Nat → Option Color → Option Int
  | [], _ => none
  | x :: xs, prevPixel =>
    let pixel := im.pixel x sampleY
    if prevPixel = some cfg.background_color ∧ pixel ≠ cfg.background_color then
      some (x : Int)
    else
      findRightBorderLoop cfg im sampleY xs (some pixel)

/-- `_find_right_border(im, sample_y)`: scans `range(width-20, -1, -1)`,
i.e. the columns `width-20, width-21, ..., 0` (the fixed 20-pixel
exclusion margin at the right image edge). For `width ≤ 19` the Python
range is empty, matching `List.range (width + 1 - 20) = List.range 0`. -/
def findRightBorder (cfg : K2pConfig) (im : Img) (sampleY : Nat) : Option Int :=
  findRightBorderLoop cfg im sampleY ((List.range (im.width + 1 - 20)).reverse) none

/-- Loop body of `_find_top_border` (lines 168-180): first row equal to the
border color yields `y + 1`. -/
def findTopBorderLoop (cfg : K2pConfig) (im : Img) (sampleX : Nat) :
    List Nat → Option Int
  | [] => none
  | y :: ys =>
    if im.pixel sampleX y = cfg.border_color then
      some ((y : Int) + 1)
    else
      findTopBorderLoop cfg im sampleX ys

/-- `_find_top_border(im, sample_x)`: scans `range(height)`. -/
def findTopBorder (cfg : K2pConfig) (im : Img) (sampleX : Nat) : Option Int :=
  findTopBorderLoop cfg im sampleX (List.range im.height)

/-- Loop body of `_find_bottom_border` (lines 182-199): walking upward,
the first border-colored row arms detection; the next border-colored row
thereafter yields `y - 1`. -/
def findBottomBorderLoop (cfg : K2pConfig) (im : Img) (sampleX : Nat) :
    List Nat → Bool → Option Int
  | [], _ => none
  | y :: ys, borderFind =>
    let pixel := im.pixel sampleX y
    if borderFind then
      if pixel = cfg.border_color then
        some ((y : Int) - 1)
      else
        findBottomBorderLoop cfg im sampleX ys borderFind
    else
      findBottomBorderLoop cfg im sampleX ys (decide (pixel = cfg.border_color))

/-- `_find_bottom_border(im, sample_x)`: scans `range(height-1, -1, -1)`. -/
def findBottomBorder (cfg : K2pConfig) (im : Img) (sampleX : Nat) : Option Int :=
  findBottomBorderLoop cfg im sampleX ((List.range im.height).reverse) false

/-- The source's accumulation `v = t if v is None else min(v, t)` guarded by
`t is not None`. -/
def combMin : Option Int → Option Int → Option Int
  | acc, none => acc
  | none, some v => some v
  | some a, some v => some (min a v)

/-- The source's accumulation `v = t if v is None else max(v, t)` guarded by
`t is not None`. -/
def combMax : Option Int → Option Int → Option Int
  | acc, none => acc
  | none, some v => some v
  | some a, some v => some (max a v)

/-- `_detect_crop_border_x` (lines 148-166): sample rows at `height//3` and
`2*(height//3)`, combining lefts by min and rights by max. -/
def detectCropBorderX (cfg : K2pConfig) (im : Img) : Option Int × Option Int :=
  let yBlock := im.height / 3
  let sampleYList := [yBlock, yBlock * 2]
  sampleYList.foldl
    (fun acc sampleY =>
      (combMin acc.1 (findLeftBorder cfg im sampleY),
       combMax acc.2 (findRightBorder cfg im sampleY)))
    (none, none)

/-- `_detect_crop_border_y` (lines 201-220): sample columns at `width//3`
and `2*(width//3)`, combining tops by min and bottoms by max. -/
def detectCropBorderY (cfg : K2pConfig) (im : Img) : Option Int × Option Int :=
  let xBlock := im.width / 3
  let sampleXList := [xBlock, xBlock * 2]
  sampleXList.foldl
    (fun acc sampleX =>
      (combMin acc.1 (findTopBorder cfg im sampleX),
       combMax acc.2 (findBottomBorder cfg im sampleX)))
    (none, none)

/-- The default configuration built in `__main__` (lines 456-459). -/
def cfgDefault : K2pConfig :=
  { border_color := (0xE7, 0xE7, 0xE7), background_color := (0xFF, 0xFF, 0xFF) }

/-- The synthetic test image from the worked example in §8 of the spec:
800×1200, a 10px border-color ring, then a 20px background margin, then
content (here black) occupying columns 30..769 and rows 30..1169. -/
def exImg : Img where
  width := 800
  height := 1200
  pixel := fun x y =>
    if x < 10 ∨ 790 ≤ x ∨ y < 10 ∨ 1190 ≤ y then (0xE7, 0xE7, 0xE7)
    else if x < 30 ∨ 770 ≤ x ∨ y < 30 ∨ 1170 ≤ y then (0xFF, 0xFF, 0xFF)
    else (0, 0, 0)

/-- A small 40×40 image on which every border scan succeeds: an all-border
top row and a double all-border band at the bottom, and in between rows
whose columns run border, background, content, background, border,
background. Used as a concrete runnable page for witnesses. -/
def smallImg : Img where
  width := 40
  height := 40
  pixel := fun x y =>
    if y = 0 ∨ 38 ≤ y then (0xE7, 0xE7, 0xE7)
    else if x = 0 ∨ x = 19 then (0xE7, 0xE7, 0xE7)
    else if 5 ≤ x ∧ x ≤ 14 then (0, 0, 0)
    else (0xFF, 0xFF, 0xFF)

/-- The per-page part of `_calc_image_size` (lines 234-239): run both
detectors and keep the page only when all four bounds are defined. The
tuple order is (left, right, top, bottom). -/
def scanPage (cfg : K2pConfig) (im : Img) : Option (Int × Int × Int × Int) :=
  match detectCropBorderX cfg im, detectCropBorderY cfg im with
  | (some l, some r), (some t, some b) => some (l, r, t, b)
  | _, _ => none

/-- The four running accumulators of `_calc_image_size`. -/
structure BoundsAcc where
  left : Option Int
  right : Option Int
  top : Option Int
  bottom : Option Int
deriving DecidableEq

/-- One accumulation step of `_calc_image_size` (lines 240-243), applied
only to pages whose scan is complete. -/
def boundsStep (acc : BoundsAcc) (c : Int × Int × Int × Int) : BoundsAcc :=
  { left := combMin acc.left (some c.1)
    right := combMax acc.right (some c.2.1)
    top := combMin acc.top (some c.2.2.1)
    bottom := combMax acc.bottom (some c.2.2.2) }

/-- The accumulation loop of `_calc_image_size` (lines 231-246) over the
opened page images. -/
def calcAcc (cfg : K2pConfig) (pages : List Img) : BoundsAcc :=
  pages.foldl
    (fun acc im =>
      match scanPage cfg im with
      | some c => boundsStep acc c
      | none => acc)
    ⟨none, none, none, none⟩

/-- The fields `_calc_image_size` assigns on success (lines 252-255). -/
structure GeomResult where
  image_width : Int
  image_height : Int
  image_top : Int × Int
  image_bottom : Int × Int
deriving DecidableEq

/-- The error message raised at line 260. -/
def geomErrMsg : String := "Could not calculate image size due to missing offsets."

/-- `_calc_image_size(page_number)` (lines 222-260): fold the detectors
over all pages, then either record the consensus geometry or raise
`ValueError` (embedded as `Except.error`). -/
def calcImageSize (cfg : K2pConfig) (pages : List Img) : Except String GeomResult :=
  let a := calcAcc cfg pages
  match a.left, a.right, a.top, a.bottom with
  | some l, some r, some t, some b =>
    .ok { image_width := r - l + 1, image_height := b - t + 1
          image_top := (l, t), image_bottom := (r, b) }
  | _, _, _, _ => .error geomErrMsg

/-- `PIL.Image.crop` with box `(l, t, r, b)`: the right and lower bounds
are exclusive, so the result measures `(r - l) × (b - t)` pixels, pixel
`(x, y)` of the result being pixel `(x + l, y + t)` of the source. -/
def pilCrop (im : Img) (l t r b : Int) : Img where
  width := (r - l).toNat
  height := (b - t).toNat
  pixel := fun x y => im.pixel (x + l.toNat) (y + t.toNat)

/-- `_crop_images` (lines 262-273): rewrite every page with
`im.crop((image_top[0], image_top[1], image_bottom[0], image_bottom[1]))`. -/
def cropImages (g : GeomResult) (pages : List Img) : List Img :=
  pages.map (fun im =>
    pilCrop im g.image_top.1 g.image_top.2 g.image_bottom.1 g.image_bottom.2)

/-- One page of the assembled PDF: the FPDF page format (width, height in
points), the 1-based source page index, the PIL crop box applied to the
source image before placing it (`none` when the full image is placed),
and the placement rectangle passed to `pdf.image` at origin (0, 0). -/
structure PdfPage where
  pageW : Int
  pageH : Int
  src : Nat
  cropBox : Option (Int × Int × Int × Int)
  placeW : Int
  placeH : Int
deriving DecidableEq

/-- `_create_pdf(page_number, comic)` (lines 303-326) together with
`_paste_right_half` (275-287) and `_paste_left_half` (289-301), as the
list of emitted PDF pages. `imageWidth`/`imageHeight` are the instance
fields set by `_calc_image_size`; `half_width = image_width // 2` is
Python floor division. -/
def createPdf (imageWidth imageHeight : Int) (pageNumber : Nat) (comic : Bool) :
    List PdfPage :=
  if comic then
    let halfWidth := Int.fdiv imageWidth 2
    (List.range pageNumber).foldl
      (fun pdf i =>
        pdf ++
          [{ pageW := halfWidth, pageH := imageHeight, src := i + 1
             cropBox := some (halfWidth, 0, imageWidth, imageHeight)
             placeW := halfWidth, placeH := imageHeight },
           { pageW := halfWidth, pageH := imageHeight, src := i + 1
             cropBox := some (0, 0, halfWidth, imageHeight)
             placeW := halfWidth, placeH := imageHeight }])
      []
  else
    (List.range pageNumber).foldl
      (fun pdf i =>
        pdf ++
          [{ pageW := imageWidth, pageH := imageHeight, src := i + 1
             cropBox := none
             placeW := imageWidth, placeH := imageHeight }])
      []

/-- `PAGE_NUMBER_MAX` (line 27). -/
def PAGE_NUMBER_MAX : Nat := 500

/-- `_is_last_page(im)` (lines 73-80): when a previous image exists,
compare raw bytes; with no previous image the Python function falls off
the end and returns `None`, which the caller's `if` treats as false, so
the embedding returns `false` there. A frame is identified with its raw
pixel bytes, so byte-for-byte equality is equality in `F`. -/
def isLastPage {F : Type} [DecidableEq F] (prevImg : Option F) (im : F) : Bool :=
  match prevImg with
  | some p => p = im
  | none => false

/-- The `while True` loop of `_capture_all_pages` (lines 88-107).
`frames k` is the screenshot acquired on the k-th iteration (abstracting
`_capture_kindle_window`), `pageNumber` and `prevImg` are the loop
variables, and `saved` records the `_save_image` calls as
(page index, frame) pairs. The result is (returned page count, saved
pages). The loop terminates because `page_number` strictly increases
toward `PAGE_NUMBER_MAX` on every non-breaking iteration. -/
def captureLoop {F : Type} [DecidableEq F] (frames : Nat → F) (k : Nat)
    (pageNumber : Nat) (prevImg : Option F) (saved : List (Nat × F)) :
    Nat × List (Nat × F) :=
  let im := frames k
  if isLastPage prevImg im then
    (pageNumber, saved)
  else
    let saved' := saved ++ [(pageNumber + 1, im)]
    if h : pageNumber + 1 ≥ PAGE_NUMBER_MAX then
      (pageNumber + 1, saved')
    else
      captureLoop frames (k + 1) (pageNumber + 1) (some im) saved'
termination_by PAGE_NUMBER_MAX - pageNumber
decreasing_by
  simp only [not_le] at h
  omega

/-- `_capture_all_pages` (lines 82-107): run the loop from page 0 with no
previous image and nothing saved. -/
def captureAllPages {F : Type} [DecidableEq F] (frames : Nat → F) :
    Nat × List (Nat × F) :=
  captureLoop frames 0 0 none []

/-- Names of the files the pipeline touches. `page n` stands for
`output/page_{n:04d}.png`, `tempBook` for `output/temp_book.pdf` (line 29),
`tempCmpBook` for `output/temp_cmp_book.pdf` (line 30), and `finalBook`
for the user-chosen `<name>.pdf` output. -/
inductive FileName where
  | page (n : Nat)
  | tempBook
  | tempCmpBook
  | finalBook
deriving DecidableEq

/-- Observable events of the tail of `main_process`. -/
inductive PipeEv where
  | runCompressor (inp outp : FileName) (exitCode : Nat)
  | compressErrorLogged (exitCode : Nat)
  | inject (inp outp : FileName)
deriving DecidableEq

/-- `subprocess.run(cmd, check=True)`: raises `CalledProcessError`
carrying the exit code when it is nonzero. -/
def subprocessRunCheck (exitCode : Nat) : Except Nat Unit :=
  if exitCode = 0 then .ok () else .error exitCode

/-- `_compress_pdf` (lines 328-348): invoke Ghostscript reading
`output/temp_book.pdf` and writing `output/temp_cmp_book.pdf`; the
`try/except CalledProcessError` catches a nonzero exit and only logs it,
so the function always returns normally (a plain event list, no
exception propagates). `gsExit` is the compressor's exit code. -/
def compressPdf (gsExit : Nat) : List PipeEv :=
  PipeEv.runCompressor FileName.tempBook FileName.tempCmpBook gsExit ::
    (match subprocessRunCheck gsExit with
     | .ok _ => []
     | .error e => [PipeEv.compressErrorLogged e])

/-- `_inject_metadata(input_pdf, output_pdf)` (lines 350-370) as its
observable event. -/
def injectMetadata (inp outp : FileName) : List PipeEv :=
  [PipeEv.inject inp outp]

/-- Lines 439-440 of `main_process`: `_compress_pdf()` followed by
`_inject_metadata(f'output/temp_cmp_book.pdf', output_book_name)`.
The injection input is the compressed intermediate path regardless of
whether compression succeeded. -/
def mainProcessTail (gsExit : Nat) : List PipeEv :=
  compressPdf gsExit ++ injectMetadata FileName.tempCmpBook FileName.finalBook

/-- The input files passed to the metadata injector in a trace. -/
def injectInputs : List PipeEv → List FileName
  | [] => []
  | PipeEv.inject inp _ :: evs => inp :: injectInputs evs
  | _ :: evs => injectInputs evs

/-- `os.remove(f)`: errors (`FileNotFoundError`) when the file is absent. -/
def osRemove (fs : Finset FileName) (f : FileName) : Except String (Finset FileName) :=
  if f ∈ fs then .ok (fs.erase f) else .error "FileNotFoundError"

/-- The `if os.path.exists(p): os.remove(p)` pattern used throughout
`_clean_up` (lines 377-388). -/
def removeChecked (fs : Finset FileName) (f : FileName) : Except String (Finset FileName) :=
  if f ∈ fs then osRemove fs f else .ok fs

/-- The files `_clean_up(page_number)` tries to remove, in order:
`page_0001.png .. page_{N:04d}.png`, then the two temporary PDFs. -/
def cleanUpTargets (pageNumber : Nat) : List FileName :=
  ((List.range pageNumber).map (fun i => FileName.page (i + 1))) ++
    [FileName.tempBook, FileName.tempCmpBook]

/-- `_clean_up(page_number)` (lines 372-388) acting on a modelled output
folder (a finite set of file names). -/
def cleanUp (pageNumber : Nat) (fs : Finset FileName) : Except String (Finset FileName) :=
  List.foldlM removeChecked fs (cleanUpTargets pageNumber)

/-- The right-border rule as §4.1 of the spec words it: starting 20 pixels
inside the right edge and scanning right to left, the result is the first
column whose right-hand (previously visited) neighbour is exactly the
background color while the column itself is not; the first visited column
has no previously visited neighbour and cannot match. -/
def rightBorderSpec (cfg : K2pConfig) (im : Img) (sampleY : Nat) : Option Int :=
  (((List.range (im.width + 1 - 20)).reverse.drop 1).find?
    (fun x => decide (im.pixel (x + 1) sampleY = cfg.background_color ∧
                      im.pixel x sampleY ≠ cfg.background_color))).map Int.ofNat

/-- The geometry the resolver computes for the one-page set `[smallImg]`:
scanning `smallImg` gives left 5, right 19, top 1, bottom 37. -/
def smallGeom : GeomResult :=
  { image_width := 15, image_height := 37, image_top := (5, 1), image_bottom := (19, 37) }

/-! ## Capture loop lemmas -/

/-- Whatever the capture loop does, it only ever appends to the list of
persisted pages. -/
theorem captureLoop_saved_extends {F : Type} [DecidableEq F] (frames : Nat → F)
    (k p : Nat) (prev : Option F) (saved : List (Nat × F)) :
    ∃ r, (captureLoop frames k p prev saved).2 = saved ++ r := by
  induction k, p, prev, saved using captureLoop.induct frames with
  | case1 k p prev saved im hlast =>
    exact ⟨[], by rw [captureLoop]; simp [hlast]⟩
  | case2 k p prev saved im hlast hge =>
    exact ⟨[(p + 1, frames k)], by rw [captureLoop]; simp [hlast, hge]⟩
  | case3 k p prev saved im hlast saved' hlt ih =>
    simp only [saved', im] at ih
    obtain ⟨r, hr⟩ := ih
    refine ⟨(p + 1, frames k) :: r, ?_⟩
    rw [captureLoop]
    simp only [hlast, Bool.false_eq_true, ite_false, ge_iff_le, hlt, dite_false]
    rw [hr]
    simp

/-- The page counter never decreases across the loop. -/
theorem captureLoop_fst_le {F : Type} [DecidableEq F] (frames : Nat → F)
    (k p : Nat) (prev : Option F) (saved : List (Nat × F)) :
    p ≤ (captureLoop frames k p prev saved).1 := by
  induction k, p, prev, saved using captureLoop.induct frames with
  | case1 k p prev saved im hlast => rw [captureLoop]; simp [hlast]
  | case2 k p prev saved im hlast hge => rw [captureLoop]; simp [hlast, hge]
  | case3 k p prev saved im hlast saved' hlt ih =>
    simp only [saved', im] at ih
    rw [captureLoop]
    simp only [hlast, Bool.false_eq_true, ite_false, ge_iff_le, hlt, dite_false]
    omega

/-- Started below the safety cap, the loop never returns a page count above
`PAGE_NUMBER_MAX`. -/
theorem captureLoop_fst_le_max {F : Type} [DecidableEq F] (frames : Nat → F)
    (k p : Nat) (prev : Option F) (saved : List (Nat × F)) (hp : p < PAGE_NUMBER_MAX) :
    (captureLoop frames k p prev saved).1 ≤ PAGE_NUMBER_MAX := by
  induction k, p, prev, saved using captureLoop.induct frames with
  | case1 k p prev saved im hlast => rw [captureLoop]; simp [hlast]; omega
  | case2 k p prev saved im hlast hge => rw [captureLoop]; simp [hlast, hge]; omega
  | case3 k p prev saved im hlast saved' hlt ih =>
    simp only [saved', im] at ih
    rw [captureLoop]
    simp only [hlast, Bool.false_eq_true, ite_false, ge_iff_le, hlt, dite_false]
    exact ih (by omega)

/-- The loop persists exactly as many pages as it counts. -/
theorem captureLoop_length {F : Type} [DecidableEq F] (frames : Nat → F)
    (k p : Nat) (prev : Option F) (saved : List (Nat × F)) :
    (captureLoop frames k p prev saved).2.length + p =
      (captureLoop frames k p prev saved).1 + saved.length := by
  induction k, p, prev, saved using captureLoop.induct frames with
  | case1 k p prev saved im hlast => rw [captureLoop]; simp [hlast]; omega
  | case2 k p prev saved im hlast hge => rw [captureLoop]; simp [hlast, hge]; omega
  | case3 k p prev saved im hlast saved' hlt ih =>
    simp only [saved', im] at ih
    rw [captureLoop]
    simp only [hlast, Bool.false_eq_true, ite_false, ge_iff_le, hlt, dite_false]
    simp only [List.length_append, List.length_cons, List.length_nil] at ih ⊢
    omega

/-- If the already-persisted indices are `1..p` in order, the loop keeps
them consecutive from 1. -/
theorem captureLoop_indices {F : Type} [DecidableEq F] (frames : Nat → F)
    (k p : Nat) (prev : Option F) (saved : List (Nat × F))
    (hs : saved.map Prod.fst = List.range' 1 p) :
    (captureLoop frames k p prev saved).2.map Prod.fst =
      List.range' 1 (captureLoop frames k p prev saved).1 := by
  have hstep : ∀ q : Nat, List.range' 1 q ++ [q + 1] = List.range' 1 (q + 1) := by
    intro q
    have h1 : 1 + 1 * q = q + 1 := by omega
    rw [List.range'_concat, h1]
  induction k, p, prev, saved using captureLoop.induct frames with
  | case1 k p prev saved im hlast => rw [captureLoop]; simp [hlast, hs]
  | case2 k p prev saved im hlast hge =>
    rw [captureLoop]
    simp only [hlast, Bool.false_eq_true, ite_false, ge_iff_le, hge, dite_true]
    simp [hs, hstep p]
  | case3 k p prev saved im hlast saved' hlt ih =>
    simp only [saved', im] at ih
    rw [captureLoop]
    simp only [hlast, Bool.false_eq_true, ite_false, ge_iff_le, hlt, dite_false]
    exact ih (by simp [hs, hstep p])

/-- Claim C5: for every sequence of acquired frames, the capture loop
terminates (it is a total function, by the strictly decreasing measure
`PAGE_NUMBER_MAX - page_number`) and persists at most
`PAGE_NUMBER_MAX = 500` pages, with the returned page count also at most
500 — duplicate detection firing or not. -/
theorem capture_within_cap {F : Type} [DecidableEq F] (frames : Nat → F) :
    (captureAllPages frames).1 ≤ PAGE_NUMBER_MAX ∧
    (captureAllPages frames).2.length ≤ PAGE_NUMBER_MAX := by
  have h1 : (captureAllPages frames).1 ≤ PAGE_NUMBER_MAX :=
    captureLoop_fst_le_max frames 0 0 none [] (by decide)
  have h2 := captureLoop_length frames 0 0 none []
  simp only [List.length_nil] at h2
  exact ⟨h1, by unfold captureAllPages at *; omega⟩

theorem capture_within_cap_witness :
    (captureAllPages (fun _ : Nat => (0 : Nat))).1 ≤ PAGE_NUMBER_MAX ∧
    (captureAllPages (fun _ : Nat => (0 : Nat))).2.length ≤ PAGE_NUMBER_MAX :=
  capture_within_cap (fun _ => 0)

/-- Claim C6: with a previously persisted frame `q` on record, a
byte-identical new frame stops the loop with nothing further persisted; a
differing new frame is persisted as the very next entry with index one
greater than the running page counter; and over a whole run the persisted
indices are exactly `1, 2, ..., n` — 1-based, contiguous, no gaps. -/
theorem duplicate_stops_else_consecutive {F : Type} [DecidableEq F]
    (frames : Nat → F) (k p : Nat) (q : F) (saved : List (Nat × F)) :
    (frames k = q → captureLoop frames k p (some q) saved = (p, saved)) ∧
    (frames k ≠ q →
      ∃ rest, (captureLoop frames k p (some q) saved).2 =
        saved ++ (p + 1, frames k) :: rest) ∧
    (captureAllPages frames).2.map Prod.fst =
      List.range' 1 (captureAllPages frames).1 := by
  refine ⟨?_, ?_, ?_⟩
  · intro h
    rw [captureLoop]
    simp [isLastPage, h]
  · intro h
    have hl : isLastPage (some q) (frames k) = false := by
      simp [isLastPage]
      exact Ne.symm h
    rw [captureLoop]
    simp only [hl, Bool.false_eq_true, ite_false]
    by_cases hc : p + 1 ≥ PAGE_NUMBER_MAX
    · refine ⟨[], ?_⟩
      simp [hc]
    · simp only [hc, dite_false]
      obtain ⟨r, hr⟩ := captureLoop_saved_extends frames (k + 1) (p + 1)
        (some (frames k)) (saved ++ [(p + 1, frames k)])
      refine ⟨r, ?_⟩
      rw [hr]
      simp
  · exact captureLoop_indices frames 0 0 none [] (by simp)

theorem duplicate_stops_witness :
    captureLoop (fun _ : Nat => (4 : Nat)) 0 3 (some 4) [] = (3, []) :=
  (duplicate_stops_else_consecutive (fun _ : Nat => (4 : Nat)) 0 3 4 []).1 rfl

/-- Claim C9: on the first iteration there is no previous frame, so the
duplicate check returns false; hence the first acquired frame is always
persisted as page 1 and every terminating run has persisted at least one
page. -/
theorem first_frame_persisted {F : Type} [DecidableEq F] (frames : Nat → F) :
    isLastPage (none : Option F) (frames 0) = false ∧
    (∃ rest, (captureAllPages frames).2 = (1, frames 0) :: rest) ∧
    1 ≤ (captureAllPages frames).1 := by
  have hc : ¬ (0 + 1 ≥ PAGE_NUMBER_MAX) := by decide
  refine ⟨rfl, ?_, ?_⟩
  · unfold captureAllPages
    rw [captureLoop]
    simp only [isLastPage, Bool.false_eq_true, ite_false, ge_iff_le, hc, dite_false]
    obtain ⟨r, hr⟩ := captureLoop_saved_extends frames 1 1 (some (frames 0))
      ([] ++ [(0 + 1, frames 0)])
    refine ⟨r, ?_⟩
    rw [hr]
    simp
  · unfold captureAllPages
    rw [captureLoop]
    simp only [isLastPage, Bool.false_eq_true, ite_false, ge_iff_le, hc, dite_false]
    have h := captureLoop_fst_le frames (0 + 1) (0 + 1) (some (frames 0)) ([] ++ [(0 + 1, frames 0)])
    simpa using h

theorem first_frame_persisted_witness :
    isLastPage (none : Option Nat) ((fun n : Nat => n + 2) 0) = false ∧
    (∃ rest, (captureAllPages (fun n : Nat => n + 2)).2 = (1, (fun n : Nat => n + 2) 0) :: rest) ∧
    1 ≤ (captureAllPages (fun n : Nat => n + 2)).1 :=
  first_frame_persisted (fun n => n + 2)

/-! ## Geometry consensus lemmas -/

/-- The accumulation in `_calc_image_size` sees exactly the pages whose
scan is complete. -/
theorem calcAcc_eq_filterMap (cfg : K2pConfig) (pages : List Img) :
    calcAcc cfg pages =
      (pages.filterMap (scanPage cfg)).foldl boundsStep ⟨none, none, none, none⟩ := by
  suffices h : ∀ (acc : BoundsAcc) (ps : List Img),
      ps.foldl
        (fun acc im =>
          match scanPage cfg im with
          | some c => boundsStep acc c
          | none => acc) acc
        = (ps.filterMap (scanPage cfg)).foldl boundsStep acc from h _ _
  intro acc ps
  induction ps generalizing acc with
  | nil => rfl
  | cons im ps ih =>
    cases h : scanPage cfg im with
    | none => simp [List.filterMap_cons, h, ih]
    | some c => simp [List.filterMap_cons, h, ih]

theorem boundsFold_left (cs : List (Int × Int × Int × Int)) (acc : BoundsAcc) :
    (cs.foldl boundsStep acc).left =
      (cs.map (fun t => t.1)).foldl (fun a x => combMin a (some x)) acc.left := by
  induction cs generalizing acc with
  | nil => rfl
  | cons c cs ih => simp [boundsStep, ih]

theorem boundsFold_right (cs : List (Int × Int × Int × Int)) (acc : BoundsAcc) :
    (cs.foldl boundsStep acc).right =
      (cs.map (fun t => t.2.1)).foldl (fun a x => combMax a (some x)) acc.right := by
  induction cs generalizing acc with
  | nil => rfl
  | cons c cs ih => simp [boundsStep, ih]

theorem boundsFold_top (cs : List (Int × Int × Int × Int)) (acc : BoundsAcc) :
    (cs.foldl boundsStep acc).top =
      (cs.map (fun t => t.2.2.1)).foldl (fun a x => combMin a (some x)) acc.top := by
  induction cs generalizing acc with
  | nil => rfl
  | cons c cs ih => simp [boundsStep, ih]

theorem boundsFold_bottom (cs : List (Int × Int × Int × Int)) (acc : BoundsAcc) :
    (cs.foldl boundsStep acc).bottom =
      (cs.map (fun t => t.2.2.2)).foldl (fun a x => combMax a (some x)) acc.bottom := by
  induction cs generalizing acc with
  | nil => rfl
  | cons c cs ih => simp [boundsStep, ih]

theorem combMin_fold_some (l : List Int) (a : Int) :
    l.foldl (fun acc x => combMin acc (some x)) (some a) = some (l.foldl min a) := by
  induction l generalizing a with
  | nil => rfl
  | cons x l ih =>
    rw [List.foldl_cons, List.foldl_cons]
    exact ih (min a x)

theorem combMax_fold_some (l : List Int) (a : Int) :
    l.foldl (fun acc x => combMax acc (some x)) (some a) = some (l.foldl max a) := by
  induction l generalizing a with
  | nil => rfl
  | cons x l ih =>
    rw [List.foldl_cons, List.foldl_cons]
    exact ih (max a x)

/-- A left fold of `min` lands on a member of the scanned values and is a
lower bound for all of them. -/
theorem foldl_min_spec (l : List Int) (a : Int) :
    l.foldl min a ∈ a :: l ∧ ∀ x ∈ a :: l, l.foldl min a ≤ x := by
  induction l generalizing a with
  | nil => simp
  | cons y l ih =>
    obtain ⟨hmem, hle⟩ := ih (min a y)
    constructor
    · simp only [List.foldl_cons]
      rcases List.mem_cons.mp hmem with h | h
      · rcases min_cases a y with ⟨he, -⟩ | ⟨he, -⟩
        · exact List.mem_cons.mpr (Or.inl (h.trans he))
        · exact List.mem_cons.mpr (Or.inr (List.mem_cons.mpr (Or.inl (h.trans he))))
      · simp [List.mem_cons, h]
    · intro x hx
      simp only [List.foldl_cons]
      rcases List.mem_cons.mp hx with h1 | hx'
      · rw [h1]
        exact le_trans (hle _ (List.mem_cons_self _ _)) (min_le_left a y)
      · rcases List.mem_cons.mp hx' with h1 | hx''
        · rw [h1]
          exact le_trans (hle _ (List.mem_cons_self _ _)) (min_le_right a y)
        · exact hle x (List.mem_cons.mpr (Or.inr hx''))

/-- A left fold of `max` lands on a member of the scanned values and is an
upper bound for all of them. -/
theorem foldl_max_spec (l : List Int) (a : Int) :
    l.foldl max a ∈ a :: l ∧ ∀ x ∈ a :: l, x ≤ l.foldl max a := by
  induction l generalizing a with
  | nil => simp
  | cons y l ih =>
    obtain ⟨hmem, hle⟩ := ih (max a y)
    constructor
    · simp only [List.foldl_cons]
      rcases List.mem_cons.mp hmem with h | h
      · rcases max_cases a y with ⟨he, -⟩ | ⟨he, -⟩
        · exact List.mem_cons.mpr (Or.inl (h.trans he))
        · exact List.mem_cons.mpr (Or.inr (List.mem_cons.mpr (Or.inl (h.trans he))))
      · simp [List.mem_cons, h]
    · intro x hx
      simp only [List.foldl_cons]
      rcases List.mem_cons.mp hx with h1 | hx'
      · rw [h1]
        exact le_trans (le_max_left a y) (hle _ (List.mem_cons_self _ _))
      · rcases List.mem_cons.mp hx' with h1 | hx''
        · rw [h1]
          exact le_trans (le_max_right a y) (hle _ (List.mem_cons_self _ _))
        · exact hle x (List.mem_cons.mpr (Or.inr hx''))

/-- Claim C4: geometry resolution fails with the fatal geometry error
exactly when no page yields all four border bounds; otherwise it returns
the single rectangle whose left/top are the minima and right/bottom the
maxima over precisely the completely-scanned pages, with
`image_width = right - left + 1` and `image_height = bottom - top + 1`. -/
theorem geometry_consensus (cfg : K2pConfig) (pages : List Img) :
    (calcImageSize cfg pages = Except.error geomErrMsg ↔
      pages.filterMap (scanPage cfg) = []) ∧
    (∀ g, calcImageSize cfg pages = Except.ok g →
      (g.image_top.1 ∈ (pages.filterMap (scanPage cfg)).map (fun c => c.1) ∧
        ∀ x ∈ (pages.filterMap (scanPage cfg)).map (fun c => c.1), g.image_top.1 ≤ x) ∧
      (g.image_bottom.1 ∈ (pages.filterMap (scanPage cfg)).map (fun c => c.2.1) ∧
        ∀ x ∈ (pages.filterMap (scanPage cfg)).map (fun c => c.2.1), x ≤ g.image_bottom.1) ∧
      (g.image_top.2 ∈ (pages.filterMap (scanPage cfg)).map (fun c => c.2.2.1) ∧
        ∀ x ∈ (pages.filterMap (scanPage cfg)).map (fun c => c.2.2.1), g.image_top.2 ≤ x) ∧
      (g.image_bottom.2 ∈ (pages.filterMap (scanPage cfg)).map (fun c => c.2.2.2) ∧
        ∀ x ∈ (pages.filterMap (scanPage cfg)).map (fun c => c.2.2.2), x ≤ g.image_bottom.2) ∧
      g.image_width = g.image_bottom.1 - g.image_top.1 + 1 ∧
      g.image_height = g.image_bottom.2 - g.image_top.2 + 1) := by
  cases hcs : pages.filterMap (scanPage cfg) with
  | nil =>
    have ha : calcAcc cfg pages = ⟨none, none, none, none⟩ := by
      rw [calcAcc_eq_filterMap, hcs]
      rfl
    have herr : calcImageSize cfg pages = Except.error geomErrMsg := by
      simp [calcImageSize, ha]
    constructor
    · simp [herr, hcs]
    · intro g hg
      rw [herr] at hg
      exact absurd hg (by simp)
  | cons c cs =>
    have hfold := calcAcc_eq_filterMap cfg pages
    rw [hcs] at hfold
    have hL : (calcAcc cfg pages).left =
        some ((cs.map (fun t => t.1)).foldl min c.1) := by
      rw [hfold, boundsFold_left]
      simp only [List.map_cons, List.foldl_cons, combMin]
      exact combMin_fold_some _ _
    have hR : (calcAcc cfg pages).right =
        some ((cs.map (fun t => t.2.1)).foldl max c.2.1) := by
      rw [hfold, boundsFold_right]
      simp only [List.map_cons, List.foldl_cons, combMax]
      exact combMax_fold_some _ _
    have hT : (calcAcc cfg pages).top =
        some ((cs.map (fun t => t.2.2.1)).foldl min c.2.2.1) := by
      rw [hfold, boundsFold_top]
      simp only [List.map_cons, List.foldl_cons, combMin]
      exact combMin_fold_some _ _
    have hB : (calcAcc cfg pages).bottom =
        some ((cs.map (fun t => t.2.2.2)).foldl max c.2.2.2) := by
      rw [hfold, boundsFold_bottom]
      simp only [List.map_cons, List.foldl_cons, combMax]
      exact combMax_fold_some _ _
    have hok : calcImageSize cfg pages =
        Except.ok
          { image_width :=
              (cs.map (fun t => t.2.1)).foldl max c.2.1 -
                (cs.map (fun t => t.1)).foldl min c.1 + 1
            image_height :=
              (cs.map (fun t => t.2.2.2)).foldl max c.2.2.2 -
                (cs.map (fun t => t.2.2.1)).foldl min c.2.2.1 + 1
            image_top :=
              ((cs.map (fun t => t.1)).foldl min c.1,
               (cs.map (fun t => t.2.2.1)).foldl min c.2.2.1)
            image_bottom :=
              ((cs.map (fun t => t.2.1)).foldl max c.2.1,
               (cs.map (fun t => t.2.2.2)).foldl max c.2.2.2) } := by
      simp only [calcImageSize]
      rw [hL, hR, hT, hB]
    constructor
    · rw [hok]
      constructor
      · intro h
        exact absurd h (by simp)
      · intro h
        exact absurd h (by simp)
    · intro g hg
      rw [hok] at hg
      injection hg with hg'
      subst hg'
      refine ⟨⟨?_, ?_⟩, ⟨?_, ?_⟩, ⟨?_, ?_⟩, ⟨?_, ?_⟩, rfl, rfl⟩
      · simpa using (foldl_min_spec (cs.map (fun t => t.1)) c.1).1
      · simpa using (foldl_min_spec (cs.map (fun t => t.1)) c.1).2
      · simpa using (foldl_max_spec (cs.map (fun t => t.2.1)) c.2.1).1
      · simpa using (foldl_max_spec (cs.map (fun t => t.2.1)) c.2.1).2
      · simpa using (foldl_min_spec (cs.map (fun t => t.2.2.1)) c.2.2.1).1
      · simpa using (foldl_min_spec (cs.map (fun t => t.2.2.1)) c.2.2.1).2
      · simpa using (foldl_max_spec (cs.map (fun t => t.2.2.2)) c.2.2.2).1
      · simpa using (foldl_max_spec (cs.map (fun t => t.2.2.2)) c.2.2.2).2

theorem geometry_consensus_witness :
    (smallGeom.image_top.1 ∈ ([smallImg].filterMap (scanPage cfgDefault)).map (fun c => c.1) ∧
      ∀ x ∈ ([smallImg].filterMap (scanPage cfgDefault)).map (fun c => c.1),
        smallGeom.image_top.1 ≤ x) ∧
    (smallGeom.image_bottom.1 ∈ ([smallImg].filterMap (scanPage cfgDefault)).map (fun c => c.2.1) ∧
      ∀ x ∈ ([smallImg].filterMap (scanPage cfgDefault)).map (fun c => c.2.1),
        x ≤ smallGeom.image_bottom.1) ∧
    (smallGeom.image_top.2 ∈ ([smallImg].filterMap (scanPage cfgDefault)).map (fun c => c.2.2.1) ∧
      ∀ x ∈ ([smallImg].filterMap (scanPage cfgDefault)).map (fun c => c.2.2.1),
        smallGeom.image_top.2 ≤ x) ∧
    (smallGeom.image_bottom.2 ∈ ([smallImg].filterMap (scanPage cfgDefault)).map (fun c => c.2.2.2) ∧
      ∀ x ∈ ([smallImg].filterMap (scanPage cfgDefault)).map (fun c => c.2.2.2),
        x ≤ smallGeom.image_bottom.2) ∧
    smallGeom.image_width = smallGeom.image_bottom.1 - smallGeom.image_top.1 + 1 ∧
    smallGeom.image_height = smallGeom.image_bottom.2 - smallGeom.image_top.2 + 1 :=
  (geometry_consensus cfgDefault [smallImg]).2 smallGeom rfl

/-! ## Crop application -/

/-- On success, the recorded width and height are the inclusive-bound
formulas over the resolved rectangle. -/
theorem calcImageSize_ok_dims (cfg : K2pConfig) (pages : List Img) (g : GeomResult)
    (h : calcImageSize cfg pages = Except.ok g) :
    g.image_width = g.image_bottom.1 - g.image_top.1 + 1 ∧
    g.image_height = g.image_bottom.2 - g.image_top.2 + 1 := by
  simp only [calcImageSize] at h
  split at h
  · injection h with h'
    subst h'
    exact ⟨rfl, rfl⟩
  · exact absurd h (by simp)

/-- Claim C2 (amended): applying the resolved rectangle to every page via
the exclusive-bound crop of the image library yields images that all share
the same dimensions, namely `right - left` by `bottom - top` — one pixel
less in each direction than the recorded `image_width = right - left + 1`
and `image_height = bottom - top + 1`. -/
theorem crop_uniform_dims (cfg : K2pConfig) (pages : List Img) (g : GeomResult)
    (h : calcImageSize cfg pages = Except.ok g) :
    (∀ im ∈ cropImages g pages,
      im.width = (g.image_bottom.1 - g.image_top.1).toNat ∧
      im.height = (g.image_bottom.2 - g.image_top.2).toNat) ∧
    g.image_width = g.image_bottom.1 - g.image_top.1 + 1 ∧
    g.image_height = g.image_bottom.2 - g.image_top.2 + 1 := by
  refine ⟨?_, calcImageSize_ok_dims cfg pages g h⟩
  intro im him
  simp only [cropImages, List.mem_map] at him
  obtain ⟨src, -, rfl⟩ := him
  exact ⟨rfl, rfl⟩

theorem crop_uniform_dims_witness :
    (∀ im ∈ cropImages smallGeom [smallImg],
      im.width = (smallGeom.image_bottom.1 - smallGeom.image_top.1).toNat ∧
      im.height = (smallGeom.image_bottom.2 - smallGeom.image_top.2).toNat) ∧
    smallGeom.image_width = smallGeom.image_bottom.1 - smallGeom.image_top.1 + 1 ∧
    smallGeom.image_height = smallGeom.image_bottom.2 - smallGeom.image_top.2 + 1 :=
  crop_uniform_dims cfgDefault [smallImg] smallGeom rfl

/-- Counterexample to claim C2 as stated: for the one-page set
`[smallImg]` the resolver succeeds with rectangle left 5, top 1, right 19,
bottom 37, but the cropped image measures 14 × 36, not
`right - left + 1 = 15` by `bottom - top + 1 = 37`, because the underlying
crop treats the right and bottom bounds as exclusive. -/
theorem crop_claimed_dims_counterexample :
    calcImageSize cfgDefault [smallImg] = Except.ok smallGeom ∧
    ¬ (∀ im ∈ cropImages smallGeom [smallImg],
        (im.width : Int) = smallGeom.image_bottom.1 - smallGeom.image_top.1 + 1 ∧
        (im.height : Int) = smallGeom.image_bottom.2 - smallGeom.image_top.2 + 1) := by
  constructor
  · rfl
  · decide

/-! ## The worked border-scan example -/

set_option maxRecDepth 100000 in
/-- Counterexample to claim C3 as stated: on the synthetic 800×1200 test
image the scanner does not return top 31 and bottom 1169. -/
theorem border_scan_example_counterexample :
    ¬ (detectCropBorderX cfgDefault exImg = (some 30, some 769) ∧
       detectCropBorderY cfgDefault exImg = (some 31, some 1169)) := by
  decide

set_option maxRecDepth 100000 in
/-- Claim C3 (amended): on the synthetic 800×1200 test image the scanner
returns left 30 and right 769 as expected, but top 1 (one row past the
first border-colored row, which is row 0 of the outer ring) and bottom
1197 (one row above the border-colored row that follows the arming row
1199 when scanning upward). -/
theorem border_scan_example :
    detectCropBorderX cfgDefault exImg = (some 30, some 769) ∧
    detectCropBorderY cfgDefault exImg = (some 1, some 1197) := by
  decide

/-! ## PDF assembly -/

/-- An imperative append-per-iteration loop is a flat map. -/
theorem foldl_append_eq_flatMap {α β : Type} (f : α → List β) (l : List α) (acc : List β) :
    l.foldl (fun a i => a ++ f i) acc = acc ++ l.flatMap f := by
  induction l generalizing acc with
  | nil => simp
  | cons x l ih => simp [ih]

/-- Comic-mode PDF creation emits, per source page, the right-half page
then the left-half page. -/
theorem createPdf_comic_eq (W H : Int) (N : Nat) :
    createPdf W H N true = (List.range N).flatMap (fun i =>
      [{ pageW := Int.fdiv W 2, pageH := H, src := i + 1
         cropBox := some (Int.fdiv W 2, 0, W, H)
         placeW := Int.fdiv W 2, placeH := H },
       { pageW := Int.fdiv W 2, pageH := H, src := i + 1
         cropBox := some (0, 0, Int.fdiv W 2, H)
         placeW := Int.fdiv W 2, placeH := H }]) := by
  simp [createPdf, foldl_append_eq_flatMap]

/-- Claim C7: in comic mode with recorded crop width `W` and height `H`,
the assembler emits exactly `2 * N` pages, and for every source page `i`
the two consecutive output pages at positions `2 i` and `2 i + 1` are the
right half then the left half of source page `i + 1`, each formatted at
`W // 2` (floor) by `H`. -/
theorem comic_mode_two_pages (W H : Int) (N : Nat) :
    (createPdf W H N true).length = 2 * N ∧
    ∀ i, i < N →
      (createPdf W H N true)[2 * i]? =
        some { pageW := Int.fdiv W 2, pageH := H, src := i + 1
               cropBox := some (Int.fdiv W 2, 0, W, H)
               placeW := Int.fdiv W 2, placeH := H } ∧
      (createPdf W H N true)[2 * i + 1]? =
        some { pageW := Int.fdiv W 2, pageH := H, src := i + 1
               cropBox := some (0, 0, Int.fdiv W 2, H)
               placeW := Int.fdiv W 2, placeH := H } := by
  rw [createPdf_comic_eq]
  induction N with
  | zero => simp
  | succ N ih =>
    obtain ⟨ihlen, ihget⟩ := ih
    rw [List.range_succ, List.flatMap_append]
    constructor
    · simp [ihlen]
      omega
    · intro i hi
      rcases Nat.lt_succ_iff_lt_or_eq.mp hi with hlt | heq
      · obtain ⟨h1, h2⟩ := ihget i hlt
        constructor
        · rw [List.getElem?_append_left (by omega)]
          exact h1
        · rw [List.getElem?_append_left (by omega)]
          exact h2
      · subst heq
        constructor
        · rw [List.getElem?_append_right (by omega)]
          simp [ihlen]
        · rw [List.getElem?_append_right (by omega)]
          simp [ihlen]

theorem comic_mode_two_pages_witness :
    (createPdf 15 37 2 true)[2 * 1]? =
      some { pageW := Int.fdiv 15 2, pageH := 37, src := 1 + 1
             cropBox := some (Int.fdiv 15 2, 0, 15, 37)
             placeW := Int.fdiv 15 2, placeH := 37 } ∧
    (createPdf 15 37 2 true)[2 * 1 + 1]? =
      some { pageW := Int.fdiv 15 2, pageH := 37, src := 1 + 1
             cropBox := some (0, 0, Int.fdiv 15 2, 37)
             placeW := Int.fdiv 15 2, placeH := 37 } :=
  (comic_mode_two_pages 15 37 2).2 1 (by decide)

/-! ## The right-border scan rule -/

/-- Over a contiguous descending index list whose carried previous pixel is
the pixel just right of the head, the scan loop is a first-match search for
the background-to-content transition. -/
theorem findRightBorderLoop_desc (cfg : K2pConfig) (im : Img) (sy : Nat) :
    ∀ n : Nat,
      findRightBorderLoop cfg im sy ((List.range n).reverse) (some (im.pixel n sy)) =
        (((List.range n).reverse).find? (fun x =>
          decide (im.pixel (x + 1) sy = cfg.background_color ∧
                  im.pixel x sy ≠ cfg.background_color))).map Int.ofNat := by
  intro n
  induction n with
  | zero => rfl
  | succ n ih =>
    rw [List.range_succ]
    simp only [List.reverse_append, List.reverse_singleton, List.singleton_append]
    by_cases hc : im.pixel (n + 1) sy = cfg.background_color ∧ im.pixel n sy ≠ cfg.background_color
    · rw [List.find?_cons_of_pos _ (by simpa using hc)]
      simp only [findRightBorderLoop]
      rw [if_pos (by simpa using hc)]
      simp
    · rw [List.find?_cons_of_neg _ (by simpa using hc)]
      simp only [findRightBorderLoop]
      rw [if_neg (by simpa using hc)]
      exact ih

/-- Claim C8: the right-border scan starts 20 pixels inside the right
image edge and, scanning right to left, returns the first column whose
previously visited right-hand neighbour is exactly the background color
while the column itself is not; with no such transition in range it
returns nothing. The first visited column, which has no previously
visited neighbour, never matches. -/
theorem right_border_matches_spec (cfg : K2pConfig) (im : Img) (sy : Nat) :
    findRightBorder cfg im sy = rightBorderSpec cfg im sy := by
  unfold findRightBorder rightBorderSpec
  cases hm : im.width + 1 - 20 with
  | zero => rfl
  | succ n =>
    rw [List.range_succ]
    simp only [List.reverse_append, List.reverse_singleton, List.singleton_append,
      List.drop_succ_cons, List.drop_zero]
    simp only [findRightBorderLoop]
    rw [if_neg (by simp)]
    exact findRightBorderLoop_desc cfg im sy n

/-! ## Compression failure handling -/

/-- Claim C1 (amended): when the compressor exits nonzero, the raised
error is caught and only logged — the pipeline continues, without
interruption, to metadata injection and the final named output — but the
injection input stays the compressed intermediate path
`output/temp_cmp_book.pdf`; the uncompressed `output/temp_book.pdf` is
not substituted for it. -/
theorem compress_failure_nonfatal (gsExit : Nat) (h : gsExit ≠ 0) :
    mainProcessTail gsExit =
      [PipeEv.runCompressor FileName.tempBook FileName.tempCmpBook gsExit,
       PipeEv.compressErrorLogged gsExit,
       PipeEv.inject FileName.tempCmpBook FileName.finalBook] ∧
    injectInputs (mainProcessTail gsExit) = [FileName.tempCmpBook] := by
  constructor <;>
    simp [mainProcessTail, compressPdf, subprocessRunCheck, injectMetadata, injectInputs, h]

theorem compress_failure_nonfatal_witness :
    mainProcessTail 1 =
      [PipeEv.runCompressor FileName.tempBook FileName.tempCmpBook 1,
       PipeEv.compressErrorLogged 1,
       PipeEv.inject FileName.tempCmpBook FileName.finalBook] ∧
    injectInputs (mainProcessTail 1) = [FileName.tempCmpBook] :=
  compress_failure_nonfatal 1 (by decide)

/-- Counterexample to claim C1 as stated: with exit code 1 the metadata
injection still reads the compressed intermediate path, not the
uncompressed `temp_book.pdf` the claim says is substituted. -/
theorem compress_no_substitution_counterexample :
    injectInputs (mainProcessTail 1) = [FileName.tempCmpBook] ∧
    FileName.tempCmpBook ≠ FileName.tempBook ∧
    injectInputs (mainProcessTail 1) ≠ [FileName.tempBook] := by
  decide

/-! ## Cleanup -/

/-- Folding the existence-checked remove over any target list never
errors and removes exactly the targets present. -/
theorem cleanUp_fold (ts : List FileName) (fs : Finset FileName) :
    List.foldlM removeChecked fs ts = Except.ok (fs \ ts.toFinset) := by
  induction ts generalizing fs with
  | nil =>
    simp only [List.toFinset_nil, Finset.sdiff_empty]
    rfl
  | cons t ts ih =>
    have hstep : removeChecked fs t = Except.ok (fs.erase t) := by
      by_cases hm : t ∈ fs
      · simp [removeChecked, osRemove, hm]
      · simp [removeChecked, hm, Finset.erase_eq_of_not_mem hm]
    have hset : fs.erase t \ ts.toFinset = fs \ (t :: ts).toFinset := by
      ext x
      simp only [Finset.mem_sdiff, Finset.mem_erase, List.toFinset_cons, Finset.mem_insert]
      tauto
    rw [List.foldlM_cons, hstep]
    show List.foldlM removeChecked (fs.erase t) ts = Except.ok (fs \ (t :: ts).toFinset)
    rw [ih, hset]

/-- Claim C10: cleanup with page count `N` always succeeds — every removal
is guarded by an existence check, so missing files cause no error — and
the resulting folder contains exactly the files that were present and are
neither `page_0001..page_N` nor one of the two temporary PDFs; in
particular the final named output is untouched. -/
theorem cleanup_removes_exactly (N : Nat) (fs : Finset FileName) :
    ∃ fs', cleanUp N fs = Except.ok fs' ∧
      (∀ g : FileName, g ∈ fs' ↔ g ∈ fs ∧
        (∀ i, 1 ≤ i → i ≤ N → g ≠ FileName.page i) ∧
        g ≠ FileName.tempBook ∧ g ≠ FileName.tempCmpBook) ∧
      (FileName.finalBook ∈ fs → FileName.finalBook ∈ fs') := by
  refine ⟨fs \ (cleanUpTargets N).toFinset, cleanUp_fold _ _, ?_, ?_⟩
  · intro g
    simp only [Finset.mem_sdiff, List.mem_toFinset, cleanUpTargets, List.mem_append,
      List.mem_map, List.mem_range, List.mem_cons, List.not_mem_nil, or_false]
    constructor
    · rintro ⟨hmem, hnot⟩
      refine ⟨hmem, ?_, ?_, ?_⟩
      · intro i h1 h2 hgp
        exact hnot (Or.inl ⟨i - 1, by omega, by rw [hgp]; congr 1; omega⟩)
      · intro hgb
        exact hnot (Or.inr (Or.inl hgb))
      · intro hgc
        exact hnot (Or.inr (Or.inr hgc))
    · rintro ⟨hmem, hpages, hb, hc⟩
      refine ⟨hmem, ?_⟩
      rintro (⟨i, hi, hgp⟩ | hgb | hgc)
      · exact hpages (i + 1) (by omega) (by omega) hgp.symm
      · exact hb hgb
      · exact hc hgc
  · intro hmem
    simp only [Finset.mem_sdiff, List.mem_toFinset, cleanUpTargets, List.mem_append,
      List.mem_map, List.mem_range, List.mem_cons, List.not_mem_nil, or_false]
    refine ⟨hmem, ?_⟩
    rintro (⟨i, hi, hgp⟩ | hgb | hgc)
    · exact absurd hgp (by simp)
    · exact absurd hgb (by simp)
    · exact absurd hgc (by simp)

theorem cleanup_removes_exactly_witness :
    ∃ fs', cleanUp 2 ({FileName.page 1, FileName.page 2, FileName.page 3,
        FileName.tempBook, FileName.finalBook} : Finset FileName) = Except.ok fs' ∧
      (∀ g : FileName, g ∈ fs' ↔ g ∈ ({FileName.page 1, FileName.page 2, FileName.page 3,
        FileName.tempBook, FileName.finalBook} : Finset FileName) ∧
        (∀ i, 1 ≤ i → i ≤ 2 → g ≠ FileName.page i) ∧
        g ≠ FileName.tempBook ∧ g ≠ FileName.tempCmpBook) ∧
      (FileName.finalBook ∈ ({FileName.page 1, FileName.page 2, FileName.page 3,
        FileName.tempBook, FileName.finalBook} : Finset FileName) →
        FileName.finalBook ∈ fs') :=
  cleanup_removes_exactly 2 _

end Kindle2pdf
